import Mathlib

set_option maxHeartbeats 1000000

/-! Verification development for the rate-limiting and bounded-cache
admission layer: a shallow embedding of `xero/lru_cache.py`,
`xero/ratelimiter.py` and `xero/ratelimiter_retest.py`, together with
theorems settling the specification claims about them.

Modelling conventions: Python objects of class `Node` live in a heap
addressed by natural-number ids; `None` is `Option.none`; Python `dict`
is an insertion-ordered association list; operations that can raise
(`KeyError`, `AttributeError`) return `Except String`; timestamps
(Python floats produced by `time.time()`) are rationals; counters and
configured limits are integers. -/

/-- `Node` from `lru_cache.py`: `prev`/`next` are object references
(`none` models Python `None`). -/
structure Node where
  key : Int
  value : Int
  prev : Option Nat
  next : Option Nat

/-- The storage of `LRUCache`: the object heap, the `_cache` dict as an
association list, and a fresh-id counter.  The left sentinel
(`_leftNode`) is id 0 and the right sentinel (`_rightNode`) is id 1. -/
structure LRUState where
  heap : Nat → Node
  cache : List (Int × Nat)
  nextId : Nat

/-- Pointwise heap update (Python field assignment on a shared object). -/
def setNode (h : Nat → Node) (i : Nat) (n : Node) : Nat → Node :=
  fun j => if j = i then n else h j

/-- Python `dict` lookup (`key in d` / `d[key]`). -/
def dictLookup : List (Int × Nat) → Int → Option Nat
  | [], _ => none
  | (k', n) :: rest, k => if k' = k then some n else dictLookup rest k

/-- Remove the entry for `k` (first occurrence). -/
def dictErase : List (Int × Nat) → Int → List (Int × Nat)
  | [], _ => []
  | (k', n) :: rest, k => if k' = k then rest else (k', n) :: dictErase rest k

/-- Python `dict.pop(key)`: raises `KeyError` when the key is absent. -/
def dictPopE (k : Int) (s : LRUState) : Except String LRUState :=
  match dictLookup s.cache k with
  | none => Except.error "KeyError"
  | some _ => Except.ok { s with cache := dictErase s.cache k }

/-- `LRUCache._remove(node)`: `left, right = node.prev, node.next;
left.next, right.prev = right, left`.  Raises `AttributeError` when a
pointer is `None` (Python would dereference `None`). -/
def removeE (i : Nat) (s : LRUState) : Except String LRUState :=
  match (s.heap i).prev, (s.heap i).next with
  | some l, some r =>
    let h1 := setNode s.heap l { s.heap l with next := some r }
    let h2 := setNode h1 r { h1 r with prev := some l }
    Except.ok { s with heap := h2 }
  | _, _ => Except.error "AttributeError"

/-- `LRUCache._insert(node)`: `prev = self._rightNode.prev;
prev.next, self._rightNode.prev = node, node;
node.next, node.prev = self._rightNode, prev`. -/
def insertE (i : Nat) (s : LRUState) : Except String LRUState :=
  match (s.heap 1).prev with
  | some p =>
    let h1 := setNode s.heap p { s.heap p with next := some i }
    let h2 := setNode h1 1 { h1 1 with prev := some i }
    let h3 := setNode h2 i { h2 i with prev := some p, next := some 1 }
    Except.ok { s with heap := h3 }
  | none => Except.error "AttributeError"

/-- `LRUCache.get(key)`: miss returns `-1`; a hit detaches and
reattaches the node at the most-recent end and returns its value. -/
def LRUCache.get (k : Int) (s : LRUState) : Except String (Int × LRUState) :=
  match dictLookup s.cache k with
  | none => Except.ok (-1, s)
  | some i =>
    match removeE i s with
    | Except.error e => Except.error e
    | Except.ok s1 =>
      match insertE i s1 with
      | Except.error e => Except.error e
      | Except.ok s2 => Except.ok ((s2.heap i).value, s2)

/-- `self._cache[key].value = value`: overwrite the stored value. -/
def setValue (i : Nat) (v : Int) (s : LRUState) : LRUState :=
  { s with heap := setNode s.heap i { s.heap i with value := v } }

/-- `self._cache[key] = Node(key, value)`: allocate a fresh node and add
the dict entry. -/
def allocNode (k v : Int) (s : LRUState) : LRUState :=
  { heap := setNode s.heap s.nextId { key := k, value := v, prev := none, next := none },
    cache := s.cache ++ [(k, s.nextId)],
    nextId := s.nextId + 1 }

/-- The eviction of `put`, exactly as written in the source:
`self._remove(self._leftNode.next)` happens first, and only afterwards
is `self._cache.pop(self._leftNode.next.key)` evaluated, re-reading
`_leftNode.next` from the already-spliced list. -/
def evictStep (s1 : LRUState) : Except String LRUState :=
  match (s1.heap 0).next with
  | none => Except.error "AttributeError"
  | some f =>
    match removeE f s1 with
    | Except.error e => Except.error e
    | Except.ok s2 =>
      match (s2.heap 0).next with
      | none => Except.error "AttributeError"
      | some g => dictPopE ((s2.heap g).key) s2

/-- `LRUCache.put(key, value)`: update-and-touch when the key is
present (early return), otherwise allocate, insert, and evict when
`len(self._cache) > self._capacity`. -/
def put (cap : Int) (k v : Int) (s : LRUState) : Except String LRUState :=
  match dictLookup s.cache k with
  | some i =>
    match removeE i (setValue i v s) with
    | Except.error e => Except.error e
    | Except.ok s1 =>
      match insertE i s1 with
      | Except.error e => Except.error e
      | Except.ok s2 => Except.ok s2
  | none =>
    match insertE s.nextId (allocNode k v s) with
    | Except.error e => Except.error e
    | Except.ok s1 =>
      if (s1.cache.length : Int) > cap then evictStep s1
      else Except.ok s1

/-- The class-body state of `LRUCache`: `_rightNode = Node(0, 0)`,
`_leftNode = Node(0, 0)`, `_cache = {}`.  These containers are created
once at class definition time and shared by every instance. -/
def classState : LRUState :=
  { heap := fun _ => { key := 0, value := 0, prev := none, next := none },
    cache := [],
    nextId := 2 }

/-- The shared part of `LRUCache.__init__`:
`self._rightNode.prev = self._leftNode; self._leftNode.next = self._rightNode`. -/
def lruInit (s : LRUState) : LRUState :=
  let h1 := setNode s.heap 1 { s.heap 1 with prev := some 0 }
  let h2 := setNode h1 0 { h1 0 with next := some 1 }
  { s with heap := h2 }

/-- The state of a freshly constructed, never-shared `LRUCache`. -/
def initState : LRUState :=
  lruInit classState

/-- Run a sequence of `put` calls. -/
def runPuts (cap : Int) : List (Int × Int) → LRUState → Except String LRUState
  | [], s => Except.ok s
  | (k, v) :: rest, s =>
    match put cap k v s with
    | Except.error e => Except.error e
    | Except.ok t => runPuts cap rest t

/-- An `LRUCache` operation. -/
inductive LRUOp where
  | putOp (k v : Int)
  | getOp (k : Int)

/-- Run a sequence of operations, collecting the results of `get`s. -/
def runOps (cap : Int) : List LRUOp → LRUState → Except String (List Int × LRUState)
  | [], s => Except.ok ([], s)
  | LRUOp.putOp k v :: rest, s =>
    match put cap k v s with
    | Except.error e => Except.error e
    | Except.ok t => runOps cap rest t
  | LRUOp.getOp k :: rest, s =>
    match LRUCache.get k s with
    | Except.error e => Except.error e
    | Except.ok (r, t) =>
      match runOps cap rest t with
      | Except.error e => Except.error e
      | Except.ok (rs, u) => Except.ok (r :: rs, u)

/-- Walk the linked list along `next` pointers (fuelled), stopping at the
right sentinel (id 1) or a `None` pointer. -/
def walkIds (h : Nat → Node) : Nat → Option Nat → List Nat
  | 0, _ => []
  | _ + 1, none => []
  | fuel + 1, some i => if i = 1 then [] else i :: walkIds h fuel (h i).next

/-- The keys of the nodes reachable between the two sentinels. -/
def chainKeys (s : LRUState) (fuel : Nat) : List Int :=
  (walkIds s.heap fuel ((s.heap 0).next)).map fun i => (s.heap i).key

/-- The spec's recency test vector, ending with the two probing `get`s. -/
def c1results : List Int :=
  match runOps 2 [LRUOp.putOp 1 1, LRUOp.putOp 2 2, LRUOp.getOp 1,
                  LRUOp.putOp 3 3, LRUOp.getOp 2, LRUOp.getOp 3] initState with
  | Except.ok (rs, _) => rs
  | Except.error _ => []

/-- The cache state right after `put(1,1); put(2,2); get(1); put(3,3)`
at capacity 2. -/
def c3state : LRUState :=
  match runOps 2 [LRUOp.putOp 1 1, LRUOp.putOp 2 2, LRUOp.getOp 1,
                  LRUOp.putOp 3 3] initState with
  | Except.ok (_, t) => t
  | Except.error _ => initState

/-- State after `put(1, 5)` on a fresh capacity-2 cache. -/
def c2exState : LRUState :=
  match put 2 1 5 initState with
  | Except.ok t => t
  | Except.error _ => initState

/-- State after `put(1,1); put(2,2)` on a fresh capacity-1 cache. -/
def c4exState : LRUState :=
  match runPuts 1 [(1, 1), (2, 2)] initState with
  | Except.ok t => t
  | Except.error _ => initState

/-- The result value of a `get`, `-999` standing for a raised exception
(which never occurs where this is used). -/
def getResult (k : Int) (s : LRUState) : Int :=
  match LRUCache.get k s with
  | Except.ok (r, _) => r
  | Except.error _ => -999

/-- Python's class-level attribute sharing: constructing instance `A`
then instance `B` runs `__init__`'s sentinel relinking twice on the one
shared class-level store. -/
def c5shared0 : LRUState :=
  lruInit (lruInit classState)

/-- The shared store after instance `A` (capacity 2) performs `put(1, 1)`. -/
def c5sharedAfterA : LRUState :=
  match put 2 1 1 c5shared0 with
  | Except.ok t => t
  | Except.error _ => c5shared0

/-! ### Exact-window rate limiter (`LeakyBucketRateLimiter`) -/

/-- The purge loop of `is_allowed`: `while self.requests and
self.requests[0] <= current_time - self.window_size:
self.requests.popleft()`. -/
def purgeLoop (w now : ℚ) : List ℚ → List ℚ
  | [] => []
  | t :: rest => if t ≤ now - w then purgeLoop w now rest else t :: rest

/-- `LeakyBucketRateLimiter.is_allowed`, with the clock reading
(`time.time()`) passed in as `now`; returns the decision and the
updated request log. -/
def isAllowed (maxR : Int) (w now : ℚ) (log : List ℚ) : Bool × List ℚ :=
  if ((purgeLoop w now log).length : Int) < maxR then (true, purgeLoop w now log ++ [now])
  else (false, purgeLoop w now log)

/-- Run a sequence of `is_allowed` calls at the given clock readings. -/
def runLeaky (maxR : Int) (w : ℚ) : List ℚ → List ℚ → List Bool × List ℚ
  | [], log => ([], log)
  | now :: rest, log =>
    let d := isAllowed maxR w now log
    let fin := runLeaky maxR w rest d.2
    (d.1 :: fin.1, fin.2)

/-- The instance attributes set by `LeakyBucketRateLimiter.__init__`
(no validation is performed). -/
structure LeakyBucket where
  maxRequests : Int
  windowSize : ℚ
  requests : List ℚ
deriving DecidableEq

/-- `LeakyBucketRateLimiter.__init__(max_requests, window_size)`. -/
def mkLeakyBucket (maxR : Int) (w : ℚ) : LeakyBucket :=
  { maxRequests := maxR, windowSize := w, requests := [] }

/-- `is_allowed` acting on a constructed instance. -/
def leakyAllow (b : LeakyBucket) (now : ℚ) : Bool × LeakyBucket :=
  let d := isAllowed b.maxRequests b.windowSize now b.requests
  (d.1, { b with requests := d.2 })

/-- Two separately constructed exact-window limiter instances: each
`__init__` runs `self.requests = deque()`, an instance attribute, so the
logs are per-instance. -/
structure TwoLeaky where
  logA : List ℚ
  logB : List ℚ
deriving DecidableEq

/-- An `is_allowed` call performed on instance `A` of the pair. -/
def allowOnA (maxR : Int) (w now : ℚ) (st : TwoLeaky) : Bool × TwoLeaky :=
  let d := isAllowed maxR w now st.logA
  (d.1, { st with logA := d.2 })

/-- A sequence of calls, all performed on instance `A`. -/
def runAllowsOnA (maxR : Int) (w : ℚ) : List ℚ → TwoLeaky → TwoLeaky
  | [], st => st
  | now :: rest, st => runAllowsOnA maxR w rest (allowOnA maxR w now st).2

/-! ### Approximate-counter rate limiter (`SlidingWindowCounterRateLimiter`) -/

/-- Instance state: `current_window_start`, `current_window_requests`,
`last_window_requests`. -/
structure SWState where
  windowStart : ℚ
  currentWindowRequests : Nat
  lastWindowRequests : Nat
deriving DecidableEq

/-- `_slide_window_if_needed` from `ratelimiter.py` (half-open
boundaries, `>=`). -/
def slideWindowIfNeeded (w now : ℚ) (s : SWState) : SWState :=
  let elapsed := now - s.windowStart
  if elapsed ≥ w then
    if elapsed ≥ 2 * w then
      { windowStart := now, currentWindowRequests := 0, lastWindowRequests := 0 }
    else
      { windowStart := now, currentWindowRequests := 0,
        lastWindowRequests := s.currentWindowRequests }
  else s

/-- `SlidingWindowCounterRateLimiter.is_allowed` from `ratelimiter.py`. -/
def isAllowedSW (maxR : Int) (w now : ℚ) (s : SWState) : Bool × SWState :=
  let s1 := slideWindowIfNeeded w now s
  let pct := (now - s1.windowStart) / w
  let est := (1 - pct) * (s1.lastWindowRequests : ℚ) + (s1.currentWindowRequests : ℚ) + 1
  if est ≤ (maxR : ℚ) then
    (true, { s1 with currentWindowRequests := s1.currentWindowRequests + 1 })
  else (false, s1)

/-- Run a sequence of `is_allowed` calls at the given clock readings. -/
def runSW (maxR : Int) (w : ℚ) : List ℚ → SWState → List Bool × SWState
  | [], s => ([], s)
  | now :: rest, s =>
    let d := isAllowedSW maxR w now s
    let fin := runSW maxR w rest d.2
    (d.1 :: fin.1, fin.2)

/-- The inline window-roll of `ratelimiter_retest.py`'s
`SlidingWindowCounterRateLimiter.is_allowed` (strict `>` boundaries). -/
def retestSlide (w now : ℚ) (s : SWState) : SWState :=
  let timeDiff := now - s.windowStart
  if timeDiff > w then
    if timeDiff > 2 * w then
      { windowStart := now, currentWindowRequests := 0, lastWindowRequests := 0 }
    else
      { windowStart := now, currentWindowRequests := 0,
        lastWindowRequests := s.currentWindowRequests }
  else s

/-- `is_allowed` from `ratelimiter_retest.py`: note the percentage is
computed from `time_diff` captured before the slide. -/
def isAllowedRetest (cap : Int) (w now : ℚ) (s : SWState) : Bool × SWState :=
  let timeDiff := now - s.windowStart
  let s1 := retestSlide w now s
  let pct := timeDiff / w
  let est := (s1.lastWindowRequests : ℚ) * (1 - pct) + (s1.currentWindowRequests : ℚ) + 1
  if est ≤ (cap : ℚ) then
    (true, { s1 with currentWindowRequests := s1.currentWindowRequests + 1 })
  else (false, s1)

/-! ### Helper lemmas about the heap and the dict -/

theorem setNode_self (h : Nat → Node) (i : Nat) (n : Node) : setNode h i n i = n := by
  simp [setNode]

theorem setNode_ne (h : Nat → Node) (i : Nat) (n : Node) {j : Nat} (hj : j ≠ i) :
    setNode h i n j = h j := by
  simp [setNode, hj]

theorem dictLookup_append_self {c : List (Int × Nat)} {k : Int} (i : Nat)
    (h : dictLookup c k = none) : dictLookup (c ++ [(k, i)]) k = some i := by
  induction c with
  | nil => simp [dictLookup]
  | cons a rest ih =>
    rcases a with ⟨a1, a2⟩
    by_cases hk : a1 = k
    · simp [dictLookup, hk] at h
    · simp only [dictLookup, if_neg hk, List.cons_append] at h ⊢
      exact ih h

theorem dictLookup_erase_append {c : List (Int × Nat)} {k : Int} (i : Nat) (q : Int)
    (h : dictLookup c k = none) :
    dictLookup (dictErase (c ++ [(k, i)]) q) k = if q = k then none else some i := by
  induction c with
  | nil =>
    by_cases hqk : q = k
    · simp [dictErase, dictLookup, hqk]
    · have : ¬ (k = q) := fun hh => hqk hh.symm
      simp [dictErase, dictLookup, hqk, this]
  | cons a rest ih =>
    rcases a with ⟨a1, a2⟩
    have ha1 : ¬ (a1 = k) := by
      intro hh
      simp [dictLookup, hh] at h
    have hrest : dictLookup rest k = none := by
      simpa [dictLookup, ha1] using h
    by_cases haq : a1 = q
    · simp only [List.cons_append, dictErase, haq, if_true]
      have hqk : ¬ (q = k) := by
        intro hh
        exact ha1 (haq.trans hh)
      simp only [hqk, if_false]
      exact dictLookup_append_self i hrest
    · simp only [List.cons_append, dictErase, if_neg haq, dictLookup, if_neg ha1]
      exact ih hrest

theorem dictErase_length {c : List (Int × Nat)} {q : Int} (h : dictLookup c q ≠ none) :
    (dictErase c q).length + 1 = c.length := by
  induction c with
  | nil => simp [dictLookup] at h
  | cons a rest ih =>
    rcases a with ⟨a1, a2⟩
    by_cases haq : a1 = q
    · simp [dictErase, haq]
    · have hrest : dictLookup rest q ≠ none := by
        simpa [dictLookup, haq] using h
      simp only [dictErase, haq, if_false, List.length_cons]
      rw [← ih hrest]

theorem dictPopE_ok_elim {k : Int} {s t : LRUState} (h : dictPopE k s = Except.ok t) :
    t.heap = s.heap ∧ t.nextId = s.nextId ∧ t.cache = dictErase s.cache k ∧
      dictLookup s.cache k ≠ none := by
  unfold dictPopE at h
  split at h
  · cases h
  · rename_i n hn
    cases h
    exact ⟨rfl, rfl, rfl, by rw [hn]; simp⟩


/-- The heap produced by a successful `_remove` of a node with
`prev = some l`, `next = some r`. -/
def removeHeap (h : Nat → Node) (l r : Nat) : Nat → Node :=
  let h1 := setNode h l { h l with next := some r }
  setNode h1 r { h1 r with prev := some l }

/-- The heap produced by a successful `_insert` of node `i` when
`_rightNode.prev = some p`. -/
def insertHeap (h : Nat → Node) (p i : Nat) : Nat → Node :=
  let h1 := setNode h p { h p with next := some i }
  let h2 := setNode h1 1 { h1 1 with prev := some i }
  setNode h2 i { h2 i with prev := some p, next := some 1 }

theorem removeE_ok_of {i : Nat} {s : LRUState} {l r : Nat}
    (hpl : (s.heap i).prev = some l) (hnr : (s.heap i).next = some r) :
    removeE i s = Except.ok { s with heap := removeHeap s.heap l r } := by
  unfold removeE removeHeap
  rw [hpl, hnr]

theorem insertE_ok_of {i : Nat} {s : LRUState} {p : Nat}
    (hp : (s.heap 1).prev = some p) :
    insertE i s = Except.ok { s with heap := insertHeap s.heap p i } := by
  unfold insertE insertHeap
  rw [hp]

theorem removeHeap_key (h : Nat → Node) (l r j : Nat) :
    ((removeHeap h l r) j).key = (h j).key := by
  simp only [removeHeap, setNode]
  split_ifs <;> simp_all

theorem removeHeap_value (h : Nat → Node) (l r j : Nat) :
    ((removeHeap h l r) j).value = (h j).value := by
  simp only [removeHeap, setNode]
  split_ifs <;> simp_all

theorem removeHeap_prev_isSome (h : Nat → Node) (l r j : Nat)
    (hj : ((h j).prev).isSome) : (((removeHeap h l r) j).prev).isSome := by
  simp only [removeHeap, setNode]
  split_ifs <;> simp_all

theorem removeHeap_next_isSome (h : Nat → Node) (l r j : Nat)
    (hj : ((h j).next).isSome) : (((removeHeap h l r) j).next).isSome := by
  simp only [removeHeap, setNode]
  split_ifs <;> simp_all

theorem removeHeap_left_next (h : Nat → Node) (l r : Nat) :
    ((removeHeap h l r) l).next = some r := by
  simp only [removeHeap, setNode]
  split_ifs <;> simp_all

theorem removeHeap_right_prev (h : Nat → Node) (l r : Nat) :
    ((removeHeap h l r) r).prev = some l := by
  simp only [removeHeap, setNode]
  split_ifs <;> simp_all

theorem insertHeap_key (h : Nat → Node) (p i j : Nat) :
    ((insertHeap h p i) j).key = (h j).key := by
  simp only [insertHeap, setNode]
  split_ifs <;> simp_all

theorem insertHeap_value (h : Nat → Node) (p i j : Nat) :
    ((insertHeap h p i) j).value = (h j).value := by
  simp only [insertHeap, setNode]
  split_ifs <;> simp_all

theorem insertHeap_node_prev (h : Nat → Node) (p i : Nat) :
    ((insertHeap h p i) i).prev = some p := by
  simp only [insertHeap, setNode]
  split_ifs <;> simp_all

theorem insertHeap_node_next (h : Nat → Node) (p i : Nat) :
    ((insertHeap h p i) i).next = some 1 := by
  simp only [insertHeap, setNode]
  split_ifs <;> simp_all

theorem insertHeap_right_prev_isSome (h : Nat → Node) (p i : Nat) :
    (((insertHeap h p i) 1).prev).isSome := by
  simp only [insertHeap, setNode]
  split_ifs <;> simp_all

theorem insertHeap_prev_isSome (h : Nat → Node) (p i j : Nat)
    (hj : ((h j).prev).isSome) : (((insertHeap h p i) j).prev).isSome := by
  simp only [insertHeap, setNode]
  split_ifs <;> simp_all

theorem insertHeap_next_isSome (h : Nat → Node) (p i j : Nat)
    (hj : ((h j).next).isSome) : (((insertHeap h p i) j).next).isSome := by
  simp only [insertHeap, setNode]
  split_ifs <;> simp_all

theorem insertHeap_p_next (h : Nat → Node) (p i : Nat) (hpi : p ≠ i) :
    ((insertHeap h p i) p).next = some i := by
  simp only [insertHeap, setNode]
  split_ifs <;> first
  | rfl
  | (exfalso; omega)

theorem removeE_ok_elim {i : Nat} {t s1 : LRUState} (h : removeE i t = Except.ok s1) :
    ∃ l r, (t.heap i).prev = some l ∧ (t.heap i).next = some r ∧
      s1 = { t with heap := removeHeap t.heap l r } := by
  unfold removeE at h
  split at h
  · rename_i l r hpl hnr
    injection h with h2
    exact ⟨l, r, hpl, hnr, h2.symm⟩
  · simp at h

theorem insertE_ok_elim {i : Nat} {t s1 : LRUState} (h : insertE i t = Except.ok s1) :
    ∃ p, (t.heap 1).prev = some p ∧ s1 = { t with heap := insertHeap t.heap p i } := by
  unfold insertE at h
  split at h
  · rename_i p hp
    injection h with h2
    exact ⟨p, hp, h2.symm⟩
  · simp at h

theorem evictStep_ok_elim {s1 s' : LRUState} (h : evictStep s1 = Except.ok s') :
    ∃ l r q, dictLookup s1.cache q ≠ none ∧
      s'.heap = removeHeap s1.heap l r ∧
      s'.cache = dictErase s1.cache q ∧ s'.nextId = s1.nextId := by
  unfold evictStep at h
  split at h
  · simp at h
  · rename_i f hf
    split at h
    · simp at h
    · rename_i s2 hrem
      rcases removeE_ok_elim hrem with ⟨l, r, hfl, hfr, hs2⟩
      subst hs2
      split at h
      · simp at h
      · rename_i g hg
        rcases dictPopE_ok_elim h with ⟨hheap, hnid, hcache, hlk⟩
        refine ⟨l, r, _, hlk, ?_, ?_, ?_⟩
        · rw [hheap]
        · rw [hcache]
        · rw [hnid]

theorem get_hit (k : Int) (s : LRUState) (i : Nat) (hl : dictLookup s.cache k = some i) :
    LRUCache.get k s =
      (match removeE i s with
       | Except.error e => Except.error e
       | Except.ok s1 =>
         match insertE i s1 with
         | Except.error e => Except.error e
         | Except.ok s2 => Except.ok ((s2.heap i).value, s2)) := by
  unfold LRUCache.get
  rw [hl]

theorem get_ok_of {k : Int} {s : LRUState} {i : Nat}
    (hl : dictLookup s.cache k = some i)
    (hp : ((s.heap i).prev).isSome) (hn : ((s.heap i).next).isSome)
    (h1 : ((s.heap 1).prev).isSome) :
    ∃ s2, LRUCache.get k s = Except.ok ((s.heap i).value, s2) := by
  rcases Option.isSome_iff_exists.mp hp with ⟨l, hpl⟩
  rcases Option.isSome_iff_exists.mp hn with ⟨r, hnr⟩
  have h1t : (((removeHeap s.heap l r) 1).prev).isSome :=
    removeHeap_prev_isSome s.heap l r 1 h1
  rcases Option.isSome_iff_exists.mp h1t with ⟨q, hq⟩
  have hrem : removeE i s = Except.ok { s with heap := removeHeap s.heap l r } :=
    removeE_ok_of hpl hnr
  have hins : insertE i { s with heap := removeHeap s.heap l r } =
      Except.ok { s with heap := insertHeap (removeHeap s.heap l r) q i } :=
    insertE_ok_of hq
  refine ⟨{ s with heap := insertHeap (removeHeap s.heap l r) q i }, ?_⟩
  rw [get_hit k s i hl]
  simp only [hrem, hins]
  simp [insertHeap_value, removeHeap_value]

theorem put_ok_post {cap k v : Int} {s s' : LRUState}
    (h : put cap k v s = Except.ok s') (hk : dictLookup s'.cache k ≠ none) :
    ∃ i, dictLookup s'.cache k = some i ∧ (s'.heap i).value = v ∧
      ((s'.heap i).prev).isSome ∧ ((s'.heap i).next).isSome ∧ ((s'.heap 1).prev).isSome := by
  unfold put at h
  split at h
  · rename_i i heq
    split at h
    · simp at h
    · rename_i s1 hrem
      split at h
      · simp at h
      · rename_i s2 hins
        injection h with h2
        subst h2
        rcases removeE_ok_elim hrem with ⟨l, r, hpl, hnr, hs1⟩
        subst hs1
        rcases insertE_ok_elim hins with ⟨p, hp, hs2⟩
        subst hs2
        refine ⟨i, heq, ?_, ?_, ?_, ?_⟩
        · show ((insertHeap (removeHeap (setValue i v s).heap l r) p i i)).value = v
          rw [insertHeap_value, removeHeap_value]
          simp [setValue, setNode]
        · show ((insertHeap (removeHeap (setValue i v s).heap l r) p i i)).prev.isSome
          rw [insertHeap_node_prev]
          rfl
        · show ((insertHeap (removeHeap (setValue i v s).heap l r) p i i)).next.isSome
          rw [insertHeap_node_next]
          rfl
        · exact insertHeap_right_prev_isSome _ _ _
  · rename_i heq
    split at h
    · simp at h
    · rename_i s1 hins
      rcases insertE_ok_elim hins with ⟨p, hp, hs1⟩
      subst hs1
      split at h
      · rename_i hlen
        rcases evictStep_ok_elim h with ⟨l, r, q, hq, hheap, hcache, hnid⟩
        have hc2 : s'.cache = dictErase (s.cache ++ [(k, s.nextId)]) q := hcache
        have hlk : dictLookup s'.cache k = if q = k then none else some s.nextId := by
          rw [hc2]
          exact dictLookup_erase_append _ _ heq
        by_cases hqk : q = k
        · exfalso
          apply hk
          rw [hlk, if_pos hqk]
        · have hsome : dictLookup s'.cache k = some s.nextId := by
            rw [hlk, if_neg hqk]
          have hh2 : s'.heap =
              removeHeap (insertHeap (allocNode k v s).heap p s.nextId) l r := hheap
          refine ⟨s.nextId, hsome, ?_, ?_, ?_, ?_⟩
          · rw [hh2, removeHeap_value, insertHeap_value]
            simp [allocNode, setNode]
          · rw [hh2]
            apply removeHeap_prev_isSome
            rw [insertHeap_node_prev]
            rfl
          · rw [hh2]
            apply removeHeap_next_isSome
            rw [insertHeap_node_next]
            rfl
          · rw [hh2]
            apply removeHeap_prev_isSome
            exact insertHeap_right_prev_isSome _ _ _
      · rename_i hlen
        injection h with h2
        subst h2
        refine ⟨s.nextId, ?_, ?_, ?_, ?_, ?_⟩
        · exact dictLookup_append_self _ heq
        · show ((insertHeap (allocNode k v s).heap p s.nextId) s.nextId).value = v
          rw [insertHeap_value]
          simp [allocNode, setNode]
        · show ((insertHeap (allocNode k v s).heap p s.nextId) s.nextId).prev.isSome
          rw [insertHeap_node_prev]
          rfl
        · show ((insertHeap (allocNode k v s).heap p s.nextId) s.nextId).next.isSome
          rw [insertHeap_node_next]
          rfl
        · exact insertHeap_right_prev_isSome _ _ _

theorem put_ok_length {cap k v : Int} {s s' : LRUState} (h : put cap k v s = Except.ok s') :
    (dictLookup s.cache k ≠ none → s'.cache.length = s.cache.length) ∧
    (dictLookup s.cache k = none →
      (((s.cache.length : Int) + 1 > cap → s'.cache.length = s.cache.length) ∧
       (((s.cache.length : Int) + 1 ≤ cap → s'.cache.length = s.cache.length + 1)))) := by
  unfold put at h
  split at h
  · rename_i i heq
    split at h
    · simp at h
    · rename_i s1 hrem
      split at h
      · simp at h
      · rename_i s2 hins
        injection h with h2
        subst h2
        rcases removeE_ok_elim hrem with ⟨l, r, hpl, hnr, hs1⟩
        subst hs1
        rcases insertE_ok_elim hins with ⟨p, hp, hs2⟩
        subst hs2
        constructor
        · intro _
          rfl
        · intro hnone
          rw [heq] at hnone
          cases hnone
  · rename_i heq
    split at h
    · simp at h
    · rename_i s1 hins
      rcases insertE_ok_elim hins with ⟨p, hp, hs1⟩
      subst hs1
      split at h
      · rename_i hlen
        rcases evictStep_ok_elim h with ⟨l, r, q, hq, hheap, hcache, hnid⟩
        have hc2 : s'.cache = dictErase (s.cache ++ [(k, s.nextId)]) q := hcache
        have hq2 : dictLookup (s.cache ++ [(k, s.nextId)]) q ≠ none := hq
        have hlen1 : (dictErase (s.cache ++ [(k, s.nextId)]) q).length + 1 =
            (s.cache ++ [(k, s.nextId)]).length := dictErase_length hq2
        have hlen2 : (s.cache ++ [(k, s.nextId)]).length = s.cache.length + 1 := by
          simp
        constructor
        · intro hne
          exact absurd heq hne
        · intro _
          constructor
          · intro _
            rw [hc2]
            omega
          · intro hle
            exfalso
            have hlen' : (((s.cache ++ [(k, s.nextId)]).length : Int)) > cap := hlen
            rw [hlen2] at hlen'
            push_cast at hlen'
            omega
      · rename_i hlen
        injection h with h2
        subst h2
        have hlen' : ¬ ((((s.cache ++ [(k, s.nextId)]).length : Int)) > cap) := hlen
        constructor
        · intro hne
          exact absurd heq hne
        · intro _
          constructor
          · intro hgt
            exfalso
            rw [List.length_append] at hlen'
            push_cast at hlen'
            simp at hlen'
            omega
          · intro _
            show (s.cache ++ [(k, s.nextId)]).length = s.cache.length + 1
            simp

theorem runPuts_ok_le {cap : Int} : ∀ (ops : List (Int × Int)) (s t : LRUState),
    runPuts cap ops s = Except.ok t → (s.cache.length : Int) ≤ cap →
    (t.cache.length : Int) ≤ cap := by
  intro ops
  induction ops with
  | nil =>
    intro s t h hle
    unfold runPuts at h
    injection h with h2
    subst h2
    exact hle
  | cons a rest ih =>
    intro s t h hle
    rcases a with ⟨k, v⟩
    unfold runPuts at h
    split at h
    · simp at h
    · rename_i u hput
      apply ih u t h
      rcases put_ok_length hput with ⟨hhit, hmiss⟩
      by_cases hc : dictLookup s.cache k = none
      · rcases hmiss hc with ⟨hgt, hle2⟩
        by_cases hg : (s.cache.length : Int) + 1 > cap
        · rw [hgt hg]
          exact hle
        · rw [hle2 (by omega)]
          push_cast
          omega
      · rw [hhit hc]
        exact hle

/-! ### Claim theorems: the LRU cache -/

/-- Claim C2: for every LRUCache state, every key `k` and value `v`, a
`put(k, v)` call that completes, immediately followed by `get(k)` with no
intervening operation, returns `v`, provided the put itself did not evict
`k` (after the put, `k` is still resident in the index). -/
theorem lru_put_get_roundtrip (cap k v : Int) (s s' : LRUState)
    (hput : put cap k v s = Except.ok s') (hres : dictLookup s'.cache k ≠ none) :
    ∃ s'', LRUCache.get k s' = Except.ok (v, s'') := by
  rcases put_ok_post hput hres with ⟨i, hl, hv, hp, hn, h1⟩
  rcases get_ok_of hl hp hn h1 with ⟨s2, hg⟩
  rw [hv] at hg
  exact ⟨s2, hg⟩

/-- Witness for C2: on a fresh capacity-2 cache, `put(1, 5)` then
`get(1)` returns `5`. -/
theorem lru_put_get_roundtrip_witness :
    ∃ s'', LRUCache.get 1 c2exState = Except.ok (5, s'') :=
  lru_put_get_roundtrip 2 1 5 initState c2exState rfl (by decide)

/-- Claim C4: for every sequence of `put` calls on an LRUCache of
positive capacity, after each completed call the number of resident keys
is at most `capacity`, and each completed over-capacity put performs
exactly one eviction (the index returns to its pre-call size after the
insertion), while other puts evict nothing. -/
theorem lru_capacity_invariant (cap : Int) (hcap : 0 < cap) (ops : List (Int × Int))
    (s : LRUState) (hrun : runPuts cap ops initState = Except.ok s) :
    (s.cache.length : Int) ≤ cap ∧
    ∀ k v s', put cap k v s = Except.ok s' →
      ((dictLookup s.cache k = none ∧ (s.cache.length : Int) + 1 > cap →
          s'.cache.length = s.cache.length) ∧
       (dictLookup s.cache k = none ∧ (s.cache.length : Int) + 1 ≤ cap →
          s'.cache.length = s.cache.length + 1) ∧
       (dictLookup s.cache k ≠ none → s'.cache.length = s.cache.length)) := by
  have hle : (s.cache.length : Int) ≤ cap := by
    apply runPuts_ok_le ops initState s hrun
    show ((([] : List (Int × Nat)).length : Int)) ≤ cap
    simp
    omega
  refine ⟨hle, ?_⟩
  intro k v s' hput
  rcases put_ok_length hput with ⟨hhit, hmiss⟩
  refine ⟨?_, ?_, hhit⟩
  · rintro ⟨hc, hgt⟩
    exact (hmiss hc).1 hgt
  · rintro ⟨hc, hle2⟩
    exact (hmiss hc).2 hle2

/-- Witness for C4: after `put(1,1); put(2,2)` at capacity 1, at most one
key is resident. -/
theorem lru_capacity_invariant_witness : (c4exState.cache.length : Int) ≤ 1 :=
  (lru_capacity_invariant 1 (by decide) [(1, 1), (2, 2)] c4exState rfl).1

/-- Claim C1 (refuted by the code): on `capacity 2` with
`put(1,1); put(2,2); get(1); put(3,3); get(2); get(3)` the source returns
`[1, 2, 3]`, not `[1, -1, 3]`: the eviction removed key 2's node from the
list but popped key 1 from the index (`_leftNode.next` is re-read after
`_remove` has already advanced it), so `get(2)` still returns 2. -/
theorem lru_recency_bug_run : c1results = [1, 2, 3] ∧ c1results ≠ [1, -1, 3] := by
  constructor
  · decide
  · decide

/-- Claim C3 (refuted by the code): after
`put(1,1); put(2,2); get(1); put(3,3)` at capacity 2, the index and the
linked list disagree: key 2 is in the index (mapped to node 3) but no
node with key 2 is reachable between the sentinels (the reachable keys
are `[1, 3]`), while the reachable node with key 1 has no index entry.
The two sizes happen to agree (both 2), but the required one-to-one
correspondence fails. -/
theorem lru_index_list_bug_run :
    dictLookup c3state.cache 2 = some 3 ∧ chainKeys c3state 10 = [1, 3] ∧
    2 ∉ chainKeys c3state 10 ∧ dictLookup c3state.cache 1 = none ∧
    c3state.cache.length = 2 := by
  refine ⟨by decide, by decide, by decide, by decide, by decide⟩

/-- Claim C5 counterexample: LRUCache storage is class-level in the
source (`_cache`, `_leftNode`, `_rightNode` are class attributes), so
after constructing caches `A` and `B` and performing `A.put(1, 1)`,
instance `B`'s `get(1)` answer changes from `-1` (miss) to `1`. -/
theorem lru_shared_storage_counterexample :
    getResult 1 c5shared0 = -1 ∧ getResult 1 c5sharedAfterA = 1 := by
  constructor
  · decide
  · decide

/-- Claim C5 amended: rate limiter instances do own isolated per-instance
storage (any sequence of `allow` calls on instance `A` leaves instance
`B`'s log unchanged), but LRUCache instances share the class-level index
and list, so one instance's `put` is observable through another. -/
theorem instance_isolation_amended :
    (∀ (maxR : Int) (w : ℚ) (nows : List ℚ) (st : TwoLeaky),
        (runAllowsOnA maxR w nows st).logB = st.logB) ∧
    getResult 1 c5sharedAfterA = 1 := by
  constructor
  · intro maxR w nows
    induction nows with
    | nil =>
      intro st
      rfl
    | cons now rest ih =>
      intro st
      simp only [runAllowsOnA]
      exact ih _
  · decide

/-! ### Helper lemmas about the exact-window limiter -/

theorem purgeLoop_length_le (w now : ℚ) :
    ∀ log : List ℚ, (purgeLoop w now log).length ≤ log.length := by
  intro log
  induction log with
  | nil => simp [purgeLoop]
  | cons t rest ih =>
    unfold purgeLoop
    split_ifs with hc
    · exact le_trans ih (by simp)
    · exact le_refl _

theorem purgeLoop_eq_of_length (w now : ℚ) :
    ∀ log : List ℚ, (purgeLoop w now log).length = log.length →
      purgeLoop w now log = log := by
  intro log
  induction log with
  | nil =>
    intro _
    rfl
  | cons t rest ih =>
    intro h
    unfold purgeLoop at h ⊢
    split_ifs at h ⊢ with hc
    · exfalso
      have hle := purgeLoop_length_le w now rest
      simp at h
      omega
    · rfl

theorem purgeLoop_sorted_eq_filter (w now : ℚ) :
    ∀ log : List ℚ, log.Sorted (· ≤ ·) →
      purgeLoop w now log = log.filter (fun t => now - w < t) := by
  intro log
  induction log with
  | nil =>
    intro _
    rfl
  | cons t rest ih =>
    intro hs
    rw [List.sorted_cons] at hs
    rcases hs with ⟨hall, hrest⟩
    unfold purgeLoop
    rw [List.filter_cons]
    by_cases hc : t ≤ now - w
    · rw [if_pos hc, ih hrest]
      have hnot : ¬ (now - w < t) := not_lt.mpr hc
      simp [hnot]
    · rw [if_neg hc]
      have h1 : now - w < t := not_le.mp hc
      have h2 : List.filter (fun x => decide (now - w < x)) rest = rest := by
        rw [List.filter_eq_self]
        intro x hx
        simp only [decide_eq_true_eq]
        exact lt_of_lt_of_le h1 (hall x hx)
      simp [h1, h2]

theorem isAllowed_len_bound {maxR : Int} {w : ℚ} (now : ℚ) (log : List ℚ)
    (hlen : (log.length : Int) ≤ maxR ⊔ 0) :
    (((isAllowed maxR w now log).2).length : Int) ≤ maxR ⊔ 0 := by
  unfold isAllowed
  have hp := purgeLoop_length_le w now log
  have hmx := le_max_left maxR (0 : Int)
  split_ifs with hc
  · simp only [List.length_append, List.length_cons, List.length_nil]
    push_cast
    omega
  · show (((purgeLoop w now log).length : Int)) ≤ maxR ⊔ 0
    omega

theorem runLeaky_len_bound {maxR : Int} {w : ℚ} :
    ∀ (nows : List ℚ) (log : List ℚ), (log.length : Int) ≤ maxR ⊔ 0 →
      (((runLeaky maxR w nows log).2).length : Int) ≤ maxR ⊔ 0 := by
  intro nows
  induction nows with
  | nil =>
    intro log h
    exact h
  | cons now rest ih =>
    intro log h
    simp only [runLeaky]
    exact ih _ (isAllowed_len_bound now log h)

theorem isAllowed_false_eq {maxR : Int} {w now : ℚ} {log : List ℚ}
    (hlen : (log.length : Int) ≤ maxR ⊔ 0)
    (hfalse : (isAllowed maxR w now log).1 = false) :
    (isAllowed maxR w now log).2 = log := by
  unfold isAllowed at hfalse ⊢
  split_ifs at hfalse ⊢ with hc
  · show purgeLoop w now log = log
    apply purgeLoop_eq_of_length
    have h1 := purgeLoop_length_le w now log
    rcases le_or_lt maxR 0 with hm | hm
    · rw [max_eq_right hm] at hlen
      omega
    · rw [max_eq_left hm.le] at hlen
      omega

/-! ### Claim theorems: the rate limiters -/

/-- Claim C6: on a monotone (sorted) log, `is_allowed(now)` purges
exactly the entries with `timestamp ≤ now − windowSize` (half-open: an
entry exactly `windowSize` old is expired), then admits and appends
`now` iff the post-purge length is strictly below `maxRequests`; and
concretely, with `maxRequests = 1`, `windowSize = 1000`, the calls at
`0, 999, 1000` from an empty log yield `true, false, true`. -/
theorem exact_window_boundary :
    (∀ (w now : ℚ) (log : List ℚ), log.Sorted (· ≤ ·) →
        purgeLoop w now log = log.filter (fun t => now - w < t)) ∧
    (∀ (maxR : Int) (w now : ℚ) (log : List ℚ),
        ((isAllowed maxR w now log).1 = true ↔
          ((purgeLoop w now log).length : Int) < maxR) ∧
        (isAllowed maxR w now log).2 =
          (if ((purgeLoop w now log).length : Int) < maxR
           then purgeLoop w now log ++ [now] else purgeLoop w now log)) ∧
    (runLeaky 1 1000 [0, 999, 1000] []).1 = [true, false, true] := by
  refine ⟨purgeLoop_sorted_eq_filter, ?_, by norm_num [runLeaky, isAllowed, purgeLoop]⟩
  intro maxR w now log
  unfold isAllowed
  split_ifs with hc
  · simp [hc]
  · simp [hc]

/-- Witness for C6: the general purge law applied to the concrete sorted
log `[0]` at `now = 1000`, `windowSize = 1000`: the entry is purged. -/
theorem exact_window_boundary_witness :
    purgeLoop 1000 1000 [0] = [0].filter (fun t => (1000 : ℚ) - 1000 < t) :=
  exact_window_boundary.1 1000 1000 [0] (List.sorted_singleton 0)

/-- Claim C10: for `maxRequests ≥ 0`, after any sequence of `is_allowed`
calls from an empty log the log holds at most `maxRequests` entries, and
a timestamp is appended only when the post-purge length is strictly
below `maxRequests` (a rejected call appends nothing). -/
theorem exact_window_log_bounded (maxR : Int) (hm : 0 ≤ maxR) (w : ℚ)
    (nows : List ℚ) :
    (((runLeaky maxR w nows []).2).length : Int) ≤ maxR ∧
    (∀ (now : ℚ) (log : List ℚ),
      ((isAllowed maxR w now log).1 = true →
        ((purgeLoop w now log).length : Int) < maxR ∧
        (isAllowed maxR w now log).2 = purgeLoop w now log ++ [now]) ∧
      ((isAllowed maxR w now log).1 = false →
        (isAllowed maxR w now log).2 = purgeLoop w now log)) := by
  constructor
  · have hbase : ((([] : List ℚ).length : Int)) ≤ maxR ⊔ 0 := by
      simp
    have := @runLeaky_len_bound maxR w nows [] hbase
    rwa [max_eq_left hm] at this
  · intro now log
    constructor
    · intro ht
      unfold isAllowed at ht ⊢
      by_cases hc : ((purgeLoop w now log).length : Int) < maxR
      · rw [if_pos hc] at ht ⊢
        exact ⟨hc, rfl⟩
      · rw [if_neg hc] at ht
        simp at ht
    · intro hf
      unfold isAllowed at hf ⊢
      by_cases hc : ((purgeLoop w now log).length : Int) < maxR
      · rw [if_pos hc] at hf
        simp at hf
      · rw [if_neg hc]

/-- Witness for C10: with `maxRequests = 1`, `windowSize = 1000` and the
call times `0, 999, 1000`, the final log holds at most one entry. -/
theorem exact_window_log_bounded_witness :
    (((runLeaky 1 1000 [0, 999, 1000] []).2).length : Int) ≤ 1 :=
  (exact_window_log_bounded 1 (by decide) 1000 [0, 999, 1000]).1

/-- Claim C7 counterexample: a rejected `is_allowed` call of the
approximate-counter limiter can mutate state.  With `maxRequests = 2`,
`windowSize = 10`, from a fresh limiter (`windowStart = 0`), the calls at
times 0 and 1 are admitted, leaving `⟨0, 2, 0⟩`; the call at time 10 is
rejected yet the step-1 window roll has already run: the post-call state
is `⟨10, 0, 2⟩`, not the pre-call `⟨0, 2, 0⟩`. -/
theorem rejection_mutation_counterexample :
    (runSW 2 10 [0, 1] ⟨0, 0, 0⟩).2 = ⟨0, 2, 0⟩ ∧
    isAllowedSW 2 10 10 ⟨0, 2, 0⟩ = (false, ⟨10, 0, 2⟩) ∧
    (⟨10, 0, 2⟩ : SWState) ≠ ⟨0, 2, 0⟩ := by
  refine ⟨?_, ?_, ?_⟩
  · norm_num [runSW, isAllowedSW, slideWindowIfNeeded]
  · norm_num [isAllowedSW, slideWindowIfNeeded]
  · norm_num [SWState.mk.injEq]

/-- Claim C7 amended: a rejected call leaves the exact-window log
identical on every state reachable from an empty log; for the
approximate-counter variant a rejected call performs no admission
mutation — its post-state equals the post-roll state — and the state is
fully unchanged whenever no window roll occurred
(`now − windowStart < windowSize`). -/
theorem rejection_nonmutating_amended :
    (∀ (maxR : Int) (w : ℚ) (nows : List ℚ) (now : ℚ),
        (isAllowed maxR w now (runLeaky maxR w nows []).2).1 = false →
        (isAllowed maxR w now (runLeaky maxR w nows []).2).2 =
          (runLeaky maxR w nows []).2) ∧
    (∀ (maxR : Int) (w now : ℚ) (s s1 : SWState),
        isAllowedSW maxR w now s = (false, s1) →
        s1 = slideWindowIfNeeded w now s ∧
          (now - s.windowStart < w → s1 = s)) := by
  constructor
  · intro maxR w nows now hfalse
    apply isAllowed_false_eq ?_ hfalse
    apply runLeaky_len_bound
    simp
  · intro maxR w now s s1 h
    simp only [isAllowedSW] at h
    split_ifs at h with hc
    · simp at h
    · injection h with h1 h2
      refine ⟨h2.symm, ?_⟩
      intro hlt
      rw [← h2]
      unfold slideWindowIfNeeded
      rw [if_neg (not_le.mpr hlt)]

/-- Witness for the amended C7, at concrete inputs: a rejected
exact-window call at time 3 on the reachable log `[0]` leaves it `[0]`,
and the rejected approximate-counter call at time 10 equals its
post-roll state (the no-roll implication holding vacuously). -/
theorem rejection_nonmutating_amended_witness :
    ((isAllowed 1 10 3 (runLeaky 1 10 [0] []).2).2 = (runLeaky 1 10 [0] []).2) ∧
    ((⟨10, 0, 2⟩ : SWState) = slideWindowIfNeeded 10 10 ⟨0, 2, 0⟩ ∧
      ((10 : ℚ) - (⟨0, 2, 0⟩ : SWState).windowStart < 10 →
        (⟨10, 0, 2⟩ : SWState) = ⟨0, 2, 0⟩)) :=
  ⟨rejection_nonmutating_amended.1 1 10 [0] 3
      (by norm_num [isAllowed, purgeLoop, runLeaky]),
   rejection_nonmutating_amended.2 2 10 10 ⟨0, 2, 0⟩ ⟨10, 0, 2⟩
      (by norm_num [isAllowedSW, slideWindowIfNeeded])⟩

/-- Claim C8 counterexample: the `ratelimiter_retest.py` variant uses a
strict `>` boundary, so at `elapsed = windowSize` exactly (here
`windowStart = 0`, `now = 10 = windowSize`) no roll happens: the call
leaves `windowStart = 0` (the claim requires `windowStart = now = 10`,
`previousCount = 3`, `currentCount = 0` before admission). -/
theorem window_roll_boundary_counterexample :
    isAllowedRetest 100 10 10 ⟨0, 3, 1⟩ = (true, ⟨0, 4, 1⟩) ∧
    (isAllowedRetest 100 10 10 ⟨0, 3, 1⟩).2.windowStart ≠ 10 := by
  have h : isAllowedRetest 100 10 10 ⟨0, 3, 1⟩ = (true, ⟨0, 4, 1⟩) := by
    norm_num [isAllowedRetest, retestSlide]
  refine ⟨h, ?_⟩
  rw [h]
  norm_num

/-- Claim C8 amended: the half-open roll (roll exactly when
`elapsed ≥ windowSize`) holds for `_slide_window_if_needed` in
`ratelimiter.py` (for a positive window size): `elapsed ≥ 2·windowSize`
resets both counters, `windowSize ≤ elapsed < 2·windowSize` shifts
`currentCount` into `previousCount`, and `elapsed < windowSize` leaves
the state untouched — while the `ratelimiter_retest.py` variant rolls
only on the strict inequality, doing nothing whenever
`elapsed ≤ windowSize`. -/
theorem window_roll_amended :
    (∀ (w now : ℚ) (s : SWState), 0 < w →
        (2 * w ≤ now - s.windowStart →
          slideWindowIfNeeded w now s = ⟨now, 0, 0⟩) ∧
        (w ≤ now - s.windowStart → now - s.windowStart < 2 * w →
          slideWindowIfNeeded w now s = ⟨now, 0, s.currentWindowRequests⟩) ∧
        (now - s.windowStart < w → slideWindowIfNeeded w now s = s)) ∧
    (∀ (w now : ℚ) (s : SWState),
        now - s.windowStart ≤ w → retestSlide w now s = s) := by
  constructor
  · intro w now s hw
    refine ⟨?_, ?_, ?_⟩
    · intro h2
      simp only [slideWindowIfNeeded]
      split_ifs <;> first
      | rfl
      | (exfalso; linarith)
    · intro h1 h2
      simp only [slideWindowIfNeeded]
      split_ifs <;> first
      | rfl
      | (exfalso; linarith)
    · intro h1
      simp only [slideWindowIfNeeded]
      split_ifs <;> first
      | rfl
      | (exfalso; linarith)
  · intro w now s hle
    simp only [retestSlide]
    rw [if_neg (not_lt.mpr hle)]

/-- Witness for the amended C8: at `windowSize = 10` the main variant
resets fully at `elapsed = 25 ≥ 20`, and the retest variant does not
roll at `elapsed = 10 ≤ 10`. -/
theorem window_roll_amended_witness :
    slideWindowIfNeeded 10 25 ⟨0, 3, 1⟩ = ⟨25, 0, 0⟩ ∧
    retestSlide 10 10 ⟨0, 3, 1⟩ = ⟨0, 3, 1⟩ :=
  ⟨(window_roll_amended.1 10 25 ⟨0, 3, 1⟩ (by norm_num)).1 (by norm_num),
   window_roll_amended.2 10 10 ⟨0, 3, 1⟩ (by norm_num)⟩

/-- The state a successful first `put(1, 1)` on a fresh cache produces
(the eviction branch is not taken at capacity 2). -/
def c9elseState : LRUState :=
  match put 2 1 1 initState with
  | Except.ok t => t
  | Except.error _ => initState

/-- Claim C9 counterexample: no constructor validates its parameters.
`LeakyBucketRateLimiter(0, 1)` constructs a usable instance whose calls
are all rejected; the approximate-counter limiter with
`maxRequests = 0` likewise just rejects; and `LRUCache(0)` constructs
fine and only fails later, at the first `put`, with a `KeyError` raised
from inside the eviction — nothing fails at construction time. -/
theorem construction_no_validation_counterexample :
    mkLeakyBucket 0 1 = { maxRequests := 0, windowSize := 1, requests := [] } ∧
    (leakyAllow (mkLeakyBucket 0 1) 5).1 = false ∧
    (isAllowedSW 0 1 0 ⟨0, 0, 0⟩).1 = false ∧
    put 0 1 1 initState = Except.error "KeyError" := by
  refine ⟨rfl, ?_, ?_, rfl⟩
  · norm_num [leakyAllow, mkLeakyBucket, isAllowed, purgeLoop]
  · norm_num [isAllowedSW, slideWindowIfNeeded]

/-- Claim C9 amended: construction never fails; instead, non-positive
parameters produce degenerate runtime behaviour: an exact-window limiter
with `maxRequests ≤ 0` rejects every request, and an LRUCache with
`capacity ≤ 0` raises `KeyError` during its first `put` (the eviction
pops the key of the right sentinel, which is not in the index). -/
theorem construction_validation_amended :
    (∀ maxR : Int, maxR ≤ 0 → ∀ (w now : ℚ) (log : List ℚ),
        (isAllowed maxR w now log).1 = false) ∧
    (∀ cap : Int, cap ≤ 0 → put cap 1 1 initState = Except.error "KeyError") := by
  constructor
  · intro maxR hm w now log
    unfold isAllowed
    have hc : ¬ (((purgeLoop w now log).length : Int) < maxR) := by
      have h0 : (0 : Int) ≤ ((purgeLoop w now log).length : Int) := Int.ofNat_nonneg _
      omega
    rw [if_neg hc]
  · intro cap hcap
    show (if ((1 : Nat) : Int) > cap then Except.error "KeyError"
          else Except.ok c9elseState) = Except.error "KeyError"
    rw [if_pos (show ((1 : Nat) : Int) > cap by omega)]

/-- Witness for the amended C9: at `maxRequests = -1` every exact-window
call is rejected, and `LRUCache(0)`'s first `put` raises `KeyError`. -/
theorem construction_validation_amended_witness :
    (isAllowed (-1) 1 0 []).1 = false ∧
    put 0 1 1 initState = Except.error "KeyError" :=
  ⟨construction_validation_amended.1 (-1) (by omega) 1 0 [],
   construction_validation_amended.2 0 (by omega)⟩
